import Mathlib

/-!
Shallow embedding of the drf-shopping aggregate store (shopping lists and
shopping items with membership-gated access, recency tracking, per-list name
uniqueness, a bounded unpurchased preview, and multi-key item ordering).

The data model follows src/shopping_list/models.py; the HTTP entry points
follow src/shopping_list/api/views.py and src/shopping_list/urls.py.  The
repository's serializers and permission classes are not present under src/
(urls.py imports view classes that the shipped views.py does not define), so
the behaviour they decide — the membership guard, the member-filtered and
recency-ordered list collection, the creator-becomes-member rule on list
creation, the duplicate-name validation, the unpurchased preview cap, the
parent touch on child-item writes, and the ordering query parameter — is
modelled from the specification, pinned by the test suite that is present
under src/shopping_list/tests/.  Timestamps are natural numbers; the state
carries the current instant explicitly.
-/

namespace DrfShopping

/-- ShoppingList row, from src/shopping_list/models.py: uuid primary key,
name, many-to-many members, and a `last_interaction` timestamp maintained by
`auto_now` on every save of the list row.  Ids and user ids are modelled as
naturals, timestamps as naturals. -/
structure ShoppingList where
  id : Nat
  name : String
  members : List Nat
  lastInteraction : Nat
  deriving DecidableEq, Repr

/-- ShoppingItem row, from src/shopping_list/models.py: uuid primary key,
name, a `purchased` boolean declared without any default value, and a
foreign key to the owning list (cascade delete). -/
structure ShoppingItem where
  id : Nat
  name : String
  purchased : Bool
  shoppingList : Nat
  deriving DecidableEq, Repr

/-- Authenticated principal: a user id plus the administrative capability
(Django staff flag, as used by the admin client in the tests). -/
structure Principal where
  id : Nat
  isStaff : Bool
  deriving DecidableEq, Repr

/-- Whole-store state: all list rows, all item rows, the ids of known user
accounts, and the current instant used by `auto_now`. -/
structure State where
  lists : List ShoppingList
  items : List ShoppingItem
  users : List Nat
  now : Nat
  deriving DecidableEq, Repr

/-- Error taxonomy of the API surface: 404, 403 and 400 respectively. -/
inductive ApiError where
  | notFound
  | forbidden
  | validationFailed
  deriving DecidableEq, Repr

/-- Resolve a list by primary key. -/
def findList (s : State) (lid : Nat) : Option ShoppingList :=
  s.lists.find? (fun l => l.id == lid)

/-- Resolve an item by primary key alone.  From src/shopping_list/api/views.py:
`ShoppingItemDetail` uses `queryset = ShoppingItem.objects.all()` with
`lookup_url_kwarg = 'item_pk'`, so only the item id takes part in the lookup. -/
def findItem (s : State) (iid : Nat) : Option ShoppingItem :=
  s.items.find? (fun i => i.id == iid)

/-- Items owned by a given list (the reverse foreign-key query set). -/
def itemsOfList (s : State) (lid : Nat) : List ShoppingItem :=
  s.items.filter (fun i => i.shoppingList == lid)

/-- Modelled from the spec: the Membership Guard (the repository's permission
classes are not under src/).  Allowed iff the principal is a member of the
list, or holds the administrative capability, which bypasses membership. -/
def authorize (p : Principal) (l : ShoppingList) : Bool :=
  p.isStaff || l.members.contains p.id

/-- Modelled from the spec: the Recency Tracker's `touch` — advance the
list's `last_interaction` to the current instant (the call sites on
child-item writes live in the serializers/views missing from src/; the
`auto_now` column itself is in models.py). -/
def touch (s : State) (lid : Nat) : State :=
  { s with
    lists := s.lists.map (fun l =>
      if l.id == lid then { l with lastInteraction := s.now } else l) }

/-- Unpurchased items of a list, in stored order. -/
def unpurchasedItems (s : State) (lid : Nat) : List ShoppingItem :=
  (itemsOfList s lid).filter (fun i => !i.purchased)

/-- Preview cap for the unpurchased-items field of the list detail view. -/
def previewCap : Nat := 3

/-- Modelled from the spec: the bounded unpurchased preview exposed by the
list-detail serializer (not under src/): at most `previewCap` unpurchased
items, a display window over — not a mutation of — the authoritative item
set. -/
def unpurchasedPreview (s : State) (lid : Nat) : List ShoppingItem :=
  (unpurchasedItems s lid).take previewCap

/-- Modelled from the spec: `create_list` — always allowed for an
authenticated principal; the creator becomes the sole initial member (the
`perform_create` hook is not under src/).  An empty name is rejected by
serializer validation.  `auto_now` stamps the new row with the current
instant. -/
def createList (s : State) (p : Principal) (newId : Nat) (nm : String) :
    Except ApiError ShoppingList × State :=
  if nm = "" then (.error .validationFailed, s)
  else
    let l : ShoppingList := ⟨newId, nm, [p.id], s.now⟩
    (.ok l, { s with lists := s.lists ++ [l] })

/-- List detail read (GET on shopping-list-detail): resolve by id, authorize,
and expose the list together with the bounded unpurchased preview. -/
def shoppingListDetail (s : State) (p : Principal) (lid : Nat) :
    Except ApiError (ShoppingList × List ShoppingItem) :=
  match findList s lid with
  | none => .error .notFound
  | some l =>
    if authorize p l then .ok (l, unpurchasedPreview s lid)
    else .error .forbidden

/-- List update (PUT/PATCH on shopping-list-detail): resolve, authorize,
validate.  A full update requires `name`; a partial update with no
recognized field succeeds and leaves the name unchanged.  Every successful
save advances `last_interaction` via `auto_now`. -/
def updateShoppingList (s : State) (p : Principal) (lid : Nat)
    (name? : Option String) (fullUpdate : Bool) :
    Except ApiError ShoppingList × State :=
  match findList s lid with
  | none => (.error .notFound, s)
  | some l =>
    if authorize p l then
      match name? with
      | none =>
        if fullUpdate then (.error .validationFailed, s)
        else (.ok { l with lastInteraction := s.now }, touch s lid)
      | some nm =>
        if nm = "" then (.error .validationFailed, s)
        else
          let l' : ShoppingList := { l with name := nm, lastInteraction := s.now }
          (.ok l',
           { s with lists := s.lists.map (fun x => if x.id == lid then l' else x) })
    else (.error .forbidden, s)

/-- List delete (DELETE on shopping-list-detail): resolve, authorize, and
cascade-delete the owned items (models.CASCADE). -/
def deleteShoppingList (s : State) (p : Principal) (lid : Nat) :
    Except ApiError Unit × State :=
  match findList s lid with
  | none => (.error .notFound, s)
  | some _l =>
    if authorize p _l then
      (.ok (),
       { s with
         lists := s.lists.filter (fun x => !(x.id == lid)),
         items := s.items.filter (fun i => !(i.shoppingList == lid)) })
    else (.error .forbidden, s)

/-- Item creation (POST on list-add-shopping-item): resolve the list,
authorize, then validate.  `name` and `purchased` are both required —
models.py declares `purchased = models.BooleanField()` with no default, and
the test suite asserts a 400 when it is missing.  A duplicate `name` on the
same list is rejected (the serializer validation is modelled from the spec,
pinned by test_duplicate_item_on_list_bad_request).  A successful write
touches the parent list. -/
def createShoppingItem (s : State) (p : Principal) (lid : Nat) (newId : Nat)
    (name? : Option String) (purchased? : Option Bool) :
    Except ApiError ShoppingItem × State :=
  match findList s lid with
  | none => (.error .notFound, s)
  | some l =>
    if authorize p l then
      match name?, purchased? with
      | some nm, some pu =>
        if nm = "" then (.error .validationFailed, s)
        else if (itemsOfList s lid).any (fun i => i.name == nm) then
          (.error .validationFailed, s)
        else
          let it : ShoppingItem := ⟨newId, nm, pu, lid⟩
          (.ok it, touch { s with items := s.items ++ [it] } lid)
      | _, _ => (.error .validationFailed, s)
    else (.error .forbidden, s)

/-- Item detail read (GET on shopping-item-detail).  The lookup uses the
item id alone (src views.py: `lookup_url_kwarg = 'item_pk'` over the full
item queryset); the list id taken from the URL path is ignored.
Authorization is checked against the item's actual owning list. -/
def shoppingItemDetail (s : State) (p : Principal) (_pathListId : Nat) (iid : Nat) :
    Except ApiError ShoppingItem :=
  match findItem s iid with
  | none => .error .notFound
  | some i =>
    match findList s i.shoppingList with
    | none => .error .notFound
    | some l => if authorize p l then .ok i else .error .forbidden

/-- Item update (PUT/PATCH on shopping-item-detail): lookup by item id alone,
authorize against the owning list, validate (a full update requires both
fields; a partial update accepts any subset), and touch the parent on
success. -/
def updateShoppingItem (s : State) (p : Principal) (_pathListId : Nat) (iid : Nat)
    (name? : Option String) (purchased? : Option Bool) (fullUpdate : Bool) :
    Except ApiError ShoppingItem × State :=
  match findItem s iid with
  | none => (.error .notFound, s)
  | some i =>
    match findList s i.shoppingList with
    | none => (.error .notFound, s)
    | some l =>
      if authorize p l then
        if fullUpdate && (name?.isNone || purchased?.isNone) then
          (.error .validationFailed, s)
        else if name?.getD i.name = "" then (.error .validationFailed, s)
        else
          let i' : ShoppingItem :=
            { i with
              name := name?.getD i.name
              purchased := purchased?.getD i.purchased }
          (.ok i',
           touch { s with items := s.items.map (fun x => if x.id == iid then i' else x) }
             i.shoppingList)
      else (.error .forbidden, s)

/-- Item delete (DELETE on shopping-item-detail): lookup by item id alone,
authorize against the owning list, delete, and touch the parent. -/
def deleteShoppingItem (s : State) (p : Principal) (_pathListId : Nat) (iid : Nat) :
    Except ApiError Unit × State :=
  match findItem s iid with
  | none => (.error .notFound, s)
  | some i =>
    match findList s i.shoppingList with
    | none => (.error .notFound, s)
    | some l =>
      if authorize p l then
        (.ok (),
         touch { s with items := s.items.filter (fun x => !(x.id == iid)) }
           i.shoppingList)
      else (.error .forbidden, s)

/-- Modelled from the spec: `add_members` (view class absent from src/):
authorize, reject atomically if any user id is unknown, otherwise merge into
the member set with duplicates as no-ops. -/
def addMembers (s : State) (p : Principal) (lid : Nat) (newMembers : List Nat) :
    Except ApiError ShoppingList × State :=
  match findList s lid with
  | none => (.error .notFound, s)
  | some l =>
    if authorize p l then
      if newMembers.all (fun u => s.users.contains u) then
        let l' : ShoppingList :=
          { l with
            members := l.members ++ newMembers.filter (fun u => !(l.members.contains u))
            lastInteraction := s.now }
        (.ok l',
         { s with lists := s.lists.map (fun x => if x.id == lid then l' else x) })
      else (.error .validationFailed, s)
    else (.error .forbidden, s)

/-- Modelled from the spec: `remove_members` (view class absent from src/):
symmetric to `addMembers`; removing an absent user is a no-op, an unknown
user id is rejected atomically. -/
def removeMembers (s : State) (p : Principal) (lid : Nat) (gone : List Nat) :
    Except ApiError ShoppingList × State :=
  match findList s lid with
  | none => (.error .notFound, s)
  | some l =>
    if authorize p l then
      if gone.all (fun u => s.users.contains u) then
        let l' : ShoppingList :=
          { l with
            members := l.members.filter (fun u => !(gone.contains u))
            lastInteraction := s.now }
        (.ok l',
         { s with lists := s.lists.map (fun x => if x.id == lid then l' else x) })
      else (.error .validationFailed, s)
    else (.error .forbidden, s)

/-- Ranking relation for the list collection: more recent `last_interaction`
first, ties broken by ascending list id. -/
def listBefore (a b : ShoppingList) : Prop :=
  b.lastInteraction < a.lastInteraction ∨
    (a.lastInteraction = b.lastInteraction ∧ a.id ≤ b.id)

instance : DecidableRel listBefore := fun a b => by
  unfold listBefore
  infer_instance

instance : IsTotal ShoppingList listBefore :=
  ⟨by intro a b; unfold listBefore; omega⟩

instance : IsTrans ShoppingList listBefore :=
  ⟨by intro a b c; unfold listBefore; omega⟩

/-- Modelled from the spec: the list-collection read (the member-filtered,
recency-ordered `get_queryset` is absent from src/): only lists the
principal is a member of, sorted most recently touched first with ties
broken by id. -/
def shoppingListsFor (s : State) (p : Principal) : List ShoppingList :=
  List.insertionSort listBefore (s.lists.filter (fun l => l.members.contains p.id))

/-- Sortable fields of the item ordering engine. -/
inductive SortField where
  | nameField
  | purchasedField
  deriving DecidableEq, Repr

/-- One sort key of an `ordering` query parameter: a recognized field and a
descending flag (written as a `-` before the field name on the wire). -/
structure SortKey where
  field : SortField
  descending : Bool
  deriving DecidableEq, Repr

/-- Split a character sequence at commas (the wire format of a multi-key
`ordering` query parameter). -/
def splitCommaAux : List Char → List Char → List (List Char)
  | [], acc => [acc.reverse]
  | c :: cs, acc =>
    if c = ',' then acc.reverse :: splitCommaAux cs []
    else splitCommaAux cs (c :: acc)

/-- Parse one sort key: an optional leading `-` means descending; only
`name` and `purchased` are recognized fields. -/
def parseKeyChars (cs : List Char) : Option SortKey :=
  let desc := cs.head? = some '-'
  let f := if desc then cs.drop 1 else cs
  if f = "name".toList then some ⟨.nameField, desc⟩
  else if f = "purchased".toList then some ⟨.purchasedField, desc⟩
  else none

/-- Modelled from the spec: parsing of the `ordering` query parameter (the
ordering-filter configuration is absent from src/): comma-separated keys, an
optional leading `-` for descending, recognized fields `name` and
`purchased`, and unknown fields ignored silently. -/
def parseOrdering (param : String) : List SortKey :=
  (splitCommaAux param.toList []).filterMap parseKeyChars

/-- Strict order on booleans: `false` sorts before `true`. -/
def boolLtB (a b : Bool) : Bool := !a && b

/-- Strict case-sensitive lexicographic order on character sequences, by
code point. -/
def lexLtChars : List Char → List Char → Bool
  | [], [] => false
  | [], _ :: _ => true
  | _ :: _, [] => false
  | a :: as, b :: bs =>
    a.toNat < b.toNat || (a.toNat == b.toNat && lexLtChars as bs)

/-- Strict comparison of two items under one sort key.  Booleans sort
`false` before `true` ascending; strings sort case-sensitively. -/
def keyLtB (k : SortKey) (a b : ShoppingItem) : Bool :=
  match k.field with
  | .purchasedField =>
    if k.descending then boolLtB b.purchased a.purchased
    else boolLtB a.purchased b.purchased
  | .nameField =>
    if k.descending then lexLtChars b.name.toList a.name.toList
    else lexLtChars a.name.toList b.name.toList

/-- Equality of two items under one sort key's field. -/
def keyEqB (k : SortKey) (a b : ShoppingItem) : Bool :=
  match k.field with
  | .purchasedField => a.purchased == b.purchased
  | .nameField => a.name == b.name

/-- Lexicographic weak order induced by a key list: keys apply left to right
as successive tie-breaks; an empty key list compares everything equal, so a
stable sort under it preserves stored order. -/
def keysLeB : List SortKey → ShoppingItem → ShoppingItem → Bool
  | [], _, _ => true
  | k :: ks, a, b => keyLtB k a b || (keyEqB k a b && keysLeB ks a b)

/-- Propositional form of `keysLeB`, used as the sorting relation. -/
def itemOrder (ks : List SortKey) (a b : ShoppingItem) : Prop :=
  keysLeB ks a b = true

instance (ks : List SortKey) : DecidableRel (itemOrder ks) := fun a b => by
  unfold itemOrder
  infer_instance

/-- Modelled from the spec: the Item Ordering Engine applies the parsed keys
through a stable sort over the stored item order. -/
def orderShoppingItems (ks : List SortKey) (items : List ShoppingItem) :
    List ShoppingItem :=
  List.insertionSort (itemOrder ks) items

/-- Item collection read (GET on list-add-shopping-item): resolve the list,
authorize, and return the owned items ordered per the query parameter. -/
def listShoppingItems (s : State) (p : Principal) (lid : Nat) (ordering : String) :
    Except ApiError (List ShoppingItem) :=
  match findList s lid with
  | none => .error .notFound
  | some l =>
    if authorize p l then
      .ok (orderShoppingItems (parseOrdering ordering) (itemsOfList s lid))
    else .error .forbidden

/-- Per-list name uniqueness invariant of the aggregate store. -/
def NamesUnique (s : State) : Prop :=
  ∀ lid, ((itemsOfList s lid).map (fun i => i.name)).Nodup

/-! Concrete fixtures used by witnesses and counterexamples, mirroring the
test suite: member alice, outsider charlie, a list "Groceries" owned by
alice holding one item "Milk". -/

def alice : Principal := ⟨1, false⟩

def charlie : Principal := ⟨2, false⟩

def groceries : ShoppingList := ⟨1, "Groceries", [1], 0⟩

def milkItem : ShoppingItem := ⟨5, "Milk", false, 1⟩

def s0 : State := ⟨[groceries], [milkItem], [1, 2], 9⟩

/-! Helper lemmas about `touch` and lookups. -/

theorem find?_cons_pos' (p : ShoppingList → Bool) (a : ShoppingList)
    (l : List ShoppingList) (h : p a = true) :
    List.find? p (a :: l) = some a := by
  simp [List.find?, h]

theorem find?_cons_neg' (p : ShoppingList → Bool) (a : ShoppingList)
    (l : List ShoppingList) (h : p a = false) :
    List.find? p (a :: l) = List.find? p l := by
  simp [List.find?, h]

theorem find?_map_touchRow (ls : List ShoppingList) (lid t : Nat) :
    (ls.map (fun l => if l.id == lid then { l with lastInteraction := t } else l)).find?
        (fun l => l.id == lid)
      = (ls.find? (fun l => l.id == lid)).map
          (fun l => { l with lastInteraction := t }) := by
  induction ls with
  | nil => rfl
  | cons hd tl ih =>
    rw [List.map_cons]
    by_cases h : (hd.id == lid) = true
    · rw [if_pos h, find?_cons_pos' _ _ _ h, find?_cons_pos' _ _ _ h]
      rfl
    · have h' : (hd.id == lid) = false := by simpa using h
      rw [if_neg h, find?_cons_neg' _ _ _ h', find?_cons_neg' _ _ _ h', ih]

theorem findList_touch (s : State) (lid : Nat) :
    findList (touch s lid) lid
      = (findList s lid).map (fun l => { l with lastInteraction := s.now }) :=
  find?_map_touchRow s.lists lid s.now

theorem itemsOfList_touch (s : State) (lid lid' : Nat) :
    itemsOfList (touch s lid) lid' = itemsOfList s lid' := rfl

theorem findList_touch_of_found (s s₁ : State) (lid : Nat) (l : ShoppingList)
    (hlists : s₁.lists = s.lists) (hnow : s₁.now = s.now)
    (hl : findList s lid = some l) :
    findList (touch s₁ lid) lid = some { l with lastInteraction := s.now } := by
  rw [findList_touch, hnow]
  have h : findList s₁ lid = some l := by
    unfold findList
    rw [hlists]
    exact hl
  rw [h]
  rfl

/-- C1: for every shopping list and every successful create, update, or
delete of an item owned by it, the parent's `last_interaction` after the
operation equals the mutation instant, hence is ≥ its value before the
operation (given that the stored value does not lie in the future) and ≥
the timestamp of the child-item mutation: the parent is touched on every
child write. -/
theorem itemWrite_touches_parent
    (s : State) (p : Principal) (l : ShoppingList) (lid : Nat)
    (hl : findList s lid = some l) (hmono : l.lastInteraction ≤ s.now) :
    (∀ nid nm pu it s',
       createShoppingItem s p lid nid (some nm) (some pu) = (.ok it, s') →
       ∃ l', findList s' lid = some l' ∧ l'.lastInteraction = s.now ∧
         l.lastInteraction ≤ l'.lastInteraction) ∧
    (∀ plid iid i name? pur? fl it s',
       findItem s iid = some i → i.shoppingList = lid →
       updateShoppingItem s p plid iid name? pur? fl = (.ok it, s') →
       ∃ l', findList s' lid = some l' ∧ l'.lastInteraction = s.now ∧
         l.lastInteraction ≤ l'.lastInteraction) ∧
    (∀ plid iid i s',
       findItem s iid = some i → i.shoppingList = lid →
       deleteShoppingItem s p plid iid = (.ok (), s') →
       ∃ l', findList s' lid = some l' ∧ l'.lastInteraction = s.now ∧
         l.lastInteraction ≤ l'.lastInteraction) := by
  refine ⟨?_, ?_, ?_⟩
  · intro nid nm pu it s' heq
    simp only [createShoppingItem, hl] at heq
    split at heq
    · split at heq
      · simp at heq
      · split at heq
        · simp at heq
        · simp only [Prod.mk.injEq, Except.ok.injEq] at heq
          obtain ⟨-, hs'⟩ := heq
          subst hs'
          exact ⟨{ l with lastInteraction := s.now },
            findList_touch_of_found s _ lid l rfl rfl hl, rfl, hmono⟩
    · simp at heq
  · intro plid iid i name? pur? fl it s' hi hil heq
    simp only [updateShoppingItem, hi, hil, hl] at heq
    split at heq
    · split at heq
      · simp at heq
      · split at heq
        · simp at heq
        · simp only [Prod.mk.injEq, Except.ok.injEq] at heq
          obtain ⟨-, hs'⟩ := heq
          subst hs'
          exact ⟨{ l with lastInteraction := s.now },
            findList_touch_of_found s _ lid l rfl rfl hl, rfl, hmono⟩
    · simp at heq
  · intro plid iid i s' hi hil heq
    simp only [deleteShoppingItem, hi, hil, hl] at heq
    split at heq
    · simp only [Prod.mk.injEq] at heq
      obtain ⟨-, hs'⟩ := heq
      subst hs'
      exact ⟨{ l with lastInteraction := s.now },
        findList_touch_of_found s _ lid l rfl rfl hl, rfl, hmono⟩
    · simp at heq

/-- C1 witness: on the concrete store, alice creating item "Eggs" on the
"Groceries" list advances the list's `last_interaction` to the current
instant, which is ≥ its previous value. -/
theorem itemWrite_touches_parent_witness :
    ∃ l', findList (createShoppingItem s0 alice 1 7 (some "Eggs") (some false)).2 1
        = some l' ∧
      l'.lastInteraction = s0.now ∧
      groceries.lastInteraction ≤ l'.lastInteraction :=
  (itemWrite_touches_parent s0 alice groceries 1 (by decide) (by decide)).1 7 "Eggs" false
    ⟨7, "Eggs", false, 1⟩
    (createShoppingItem s0 alice 1 7 (some "Eggs") (some false)).2 (by rfl)

/-- C2: for every principal without the administrative capability and every
existing list of which the principal is not a member, every direct read or
write of the list by id, and of any item under it by id, fails with
`forbidden` — an error distinct from `notFound` — and leaves the state
unchanged. -/
theorem nonmember_direct_access_forbidden
    (s : State) (p : Principal) (l : ShoppingList) (lid : Nat)
    (hl : findList s lid = some l)
    (hstaff : p.isStaff = false)
    (hmem : p.id ∉ l.members) :
    shoppingListDetail s p lid = .error .forbidden ∧
    (∀ name? fl, updateShoppingList s p lid name? fl = (.error .forbidden, s)) ∧
    deleteShoppingList s p lid = (.error .forbidden, s) ∧
    (∀ nid name? pur?,
       createShoppingItem s p lid nid name? pur? = (.error .forbidden, s)) ∧
    (∀ ordering, listShoppingItems s p lid ordering = .error .forbidden) ∧
    (∀ ms, addMembers s p lid ms = (.error .forbidden, s)) ∧
    (∀ ms, removeMembers s p lid ms = (.error .forbidden, s)) ∧
    (∀ plid iid i, findItem s iid = some i → i.shoppingList = lid →
       shoppingItemDetail s p plid iid = .error .forbidden ∧
       (∀ name? pur? fl,
          updateShoppingItem s p plid iid name? pur? fl = (.error .forbidden, s)) ∧
       deleteShoppingItem s p plid iid = (.error .forbidden, s)) ∧
    ApiError.forbidden ≠ ApiError.notFound := by
  have hauth : authorize p l = false := by
    simp [authorize, hstaff]
    simpa using hmem
  refine ⟨?_, ?_, ?_, ?_, ?_, ?_, ?_, ?_, ?_⟩
  · simp [shoppingListDetail, hl, hauth]
  · intro name? fl
    simp [updateShoppingList, hl, hauth]
  · simp [deleteShoppingList, hl, hauth]
  · intro nid name? pur?
    simp [createShoppingItem, hl, hauth]
  · intro ordering
    simp [listShoppingItems, hl, hauth]
  · intro ms
    simp [addMembers, hl, hauth]
  · intro ms
    simp [removeMembers, hl, hauth]
  · intro plid iid i hi hil
    refine ⟨?_, ?_, ?_⟩
    · simp [shoppingItemDetail, hi, hil, hl, hauth]
    · intro name? pur? fl
      simp [updateShoppingItem, hi, hil, hl, hauth]
    · simp [deleteShoppingItem, hi, hil, hl, hauth]
  · intro h
    cases h

/-- C2 witness: on the concrete store, non-member charlie is denied the
list-detail read of "Groceries" and the delete of its item "Milk", with the
state unchanged. -/
theorem nonmember_direct_access_forbidden_witness :
    shoppingListDetail s0 charlie 1 = .error .forbidden ∧
    deleteShoppingItem s0 charlie 1 5 = (.error .forbidden, s0) := by
  have h := nonmember_direct_access_forbidden s0 charlie groceries 1 (by rfl)
    (by rfl) (by decide)
  exact ⟨h.1, (h.2.2.2.2.2.2.2.1 1 5 milkItem (by rfl) (by rfl)).2.2⟩

/-- C3: for every principal without the administrative capability, the list
collection contains exactly the stored lists the principal is a member of:
a list of which the principal is not a member is simply omitted, and the
read is total (no error is raised). -/
theorem collection_omits_nonmember_lists
    (s : State) (p : Principal) (hstaff : p.isStaff = false) :
    ∀ l, l ∈ shoppingListsFor s p ↔ (l ∈ s.lists ∧ p.id ∈ l.members) := by
  intro l
  simp [shoppingListsFor, List.mem_filter]

/-- C3 witness: on the concrete store, "Groceries" is present in the
collection read exactly when charlie is one of its members — and charlie is
not, so it is omitted. -/
theorem collection_omits_nonmember_lists_witness :
    groceries ∈ shoppingListsFor s0 charlie ↔
      (groceries ∈ s0.lists ∧ charlie.id ∈ groceries.members) :=
  collection_omits_nonmember_lists s0 charlie (by rfl) groceries

/-- C4: for every principal, the list collection is sorted by
`last_interaction` descending — every list ranks before any list touched
strictly earlier — with ties between equal timestamps broken by ascending
list id, so the produced order is deterministic. -/
theorem collection_sorted_by_recency (s : State) (p : Principal) :
    List.Pairwise
      (fun a b => b.lastInteraction < a.lastInteraction ∨
        (a.lastInteraction = b.lastInteraction ∧ a.id ≤ b.id))
      (shoppingListsFor s p) :=
  List.sorted_insertionSort listBefore
    (s.lists.filter (fun l => l.members.contains p.id))

/-- C5: creating an item with a name an existing item of the same list
already bears (case-sensitive exact match) by an authorized principal fails
with `validationFailed` and leaves the store unchanged; and item creation
preserves the per-list name-uniqueness invariant, so no two items of one
list ever come to share a name through creation. -/
theorem duplicate_item_name_rejected
    (s : State) (p : Principal) (l : ShoppingList) (lid : Nat)
    (hl : findList s lid = some l) (hauth : authorize p l = true)
    (i : ShoppingItem) (hi : i ∈ itemsOfList s lid) (nm : String)
    (hnm : i.name = nm) :
    (∀ nid pu,
       createShoppingItem s p lid nid (some nm) (some pu)
         = (.error .validationFailed, s)) ∧
    (∀ s₂ p₂ lid₂ nid₂ name? pur? it s₂',
       createShoppingItem s₂ p₂ lid₂ nid₂ name? pur? = (.ok it, s₂') →
       NamesUnique s₂ → NamesUnique s₂') := by
  constructor
  · intro nid pu
    by_cases hempty : nm = ""
    · simp [createShoppingItem, hl, hauth, hempty]
    · have hdup : (itemsOfList s lid).any (fun x => x.name == nm) = true :=
        List.any_eq_true.mpr ⟨i, hi, by simp [hnm]⟩
      simp [createShoppingItem, hl, hauth, hempty, hdup]
  · intro s₂ p₂ lid₂ nid₂ name? pur? it s₂' heq hU
    simp only [createShoppingItem] at heq
    split at heq
    · simp at heq
    · split at heq
      · split at heq
        · split at heq
          · simp at heq
          · split at heq
            · simp at heq
            · rename_i l₂ hfound nm₂ pu₂ hempty hdup
              simp only [Prod.mk.injEq, Except.ok.injEq] at heq
              obtain ⟨-, hs'⟩ := heq
              subst hs'
              intro lid'
              rw [show itemsOfList
                    (touch { s₂ with items := s₂.items ++ [⟨nid₂, nm₂, pu₂, lid₂⟩] } lid₂)
                    lid'
                  = (s₂.items ++ ([⟨nid₂, nm₂, pu₂, lid₂⟩] : List ShoppingItem)).filter
                      (fun x => x.shoppingList == lid') from rfl]
              rw [List.filter_append]
              by_cases hmatch : (lid₂ == lid') = true
              · have hlid : lid₂ = lid' := by simpa using hmatch
                subst hlid
                rw [show (([⟨nid₂, nm₂, pu₂, lid₂⟩] : List ShoppingItem).filter
                      (fun x => x.shoppingList == lid₂))
                    = [⟨nid₂, nm₂, pu₂, lid₂⟩] from by simp [List.filter]]
                rw [List.map_append]
                rw [List.nodup_append]
                refine ⟨hU lid₂, by simp, ?_⟩
                intro a ha hb
                have hanm : a = nm₂ := by simpa using hb
                subst hanm
                obtain ⟨i', hi', hname⟩ := List.mem_map.mp ha
                have hdupf := (Bool.not_eq_true _).mp hdup
                have := List.any_eq_false.mp hdupf i' hi'
                simp [hname] at this
              · rw [show (([⟨nid₂, nm₂, pu₂, lid₂⟩] : List ShoppingItem).filter
                      (fun x => x.shoppingList == lid'))
                    = [] from by simp [List.filter, hmatch]]
                rw [List.append_nil]
                exact hU lid'
        · simp at heq
      · simp at heq

/-- C5 witness: on the concrete store, alice creating a second "Milk" item
on "Groceries" is rejected with `validationFailed` and the store, hence the
item count of the list, is unchanged. -/
theorem duplicate_item_name_rejected_witness :
    createShoppingItem s0 alice 1 7 (some "Milk") (some false)
      = (.error .validationFailed, s0) :=
  (duplicate_item_name_rejected s0 alice groceries 1 (by rfl) (by rfl)
    milkItem (by decide) "Milk" rfl).1 7 false

/-- C6: for every list with at least 4 unpurchased items readable by an
authorized principal, the list-detail read succeeds and exposes exactly 3
items in the unpurchased preview field, the preview being a prefix window
over — not a mutation of — the authoritative unpurchased set, and a sublist
of the authoritative item set of the list. -/
theorem unpurchased_preview_capped_at_three
    (s : State) (p : Principal) (l : ShoppingList) (lid : Nat)
    (hl : findList s lid = some l) (hauth : authorize p l = true)
    (hcount : 4 ≤ (unpurchasedItems s lid).length) :
    shoppingListDetail s p lid = .ok (l, unpurchasedPreview s lid) ∧
    (unpurchasedPreview s lid).length = 3 ∧
    unpurchasedPreview s lid ++ (unpurchasedItems s lid).drop previewCap
      = unpurchasedItems s lid ∧
    (unpurchasedPreview s lid).Sublist (itemsOfList s lid) := by
  refine ⟨?_, ?_, ?_, ?_⟩
  · simp [shoppingListDetail, hl, hauth]
  · simp only [unpurchasedPreview, previewCap, List.length_take]
    omega
  · exact List.take_append_drop previewCap (unpurchasedItems s lid)
  · exact (List.take_sublist _ _).trans (List.filter_sublist _)

/-- C6 witness: a "Groceries" store with four unpurchased items previews
exactly three of them while the full unpurchased set keeps all four. -/
theorem unpurchased_preview_capped_at_three_witness :
    shoppingListDetail
        ⟨[groceries], [⟨1, "Eggs", false, 1⟩, ⟨2, "Chocolate", false, 1⟩,
          ⟨3, "Milk", false, 1⟩, ⟨4, "Mango", false, 1⟩], [1, 2], 3⟩ alice 1
      = .ok (groceries,
          unpurchasedPreview
            ⟨[groceries], [⟨1, "Eggs", false, 1⟩, ⟨2, "Chocolate", false, 1⟩,
              ⟨3, "Milk", false, 1⟩, ⟨4, "Mango", false, 1⟩], [1, 2], 3⟩ 1) ∧
    (unpurchasedPreview
        ⟨[groceries], [⟨1, "Eggs", false, 1⟩, ⟨2, "Chocolate", false, 1⟩,
          ⟨3, "Milk", false, 1⟩, ⟨4, "Mango", false, 1⟩], [1, 2], 3⟩ 1).length = 3 :=
  ⟨(unpurchased_preview_capped_at_three _ alice groceries 1 (by rfl) (by rfl)
      (by decide)).1,
   (unpurchased_preview_capped_at_three _ alice groceries 1 (by rfl) (by rfl)
      (by decide)).2.1⟩

/-! Order-theoretic facts about the item ordering engine, needed to show
that its stable sort produces sorted output for any key list. -/

theorem lexLtChars_cons_iff (a b : Char) (as bs : List Char) :
    lexLtChars (a :: as) (b :: bs) = true ↔
      (a.toNat < b.toNat ∨ (a.toNat = b.toNat ∧ lexLtChars as bs = true)) := by
  simp [lexLtChars]

theorem lexLtChars_trans : ∀ {as bs cs : List Char},
    lexLtChars as bs = true → lexLtChars bs cs = true → lexLtChars as cs = true := by
  intro as
  induction as with
  | nil =>
    intro bs cs h1 h2
    cases bs with
    | nil => exact h2
    | cons b bs =>
      cases cs with
      | nil => simp [lexLtChars] at h2
      | cons c cs => rfl
  | cons a as ih =>
    intro bs cs h1 h2
    cases bs with
    | nil => simp [lexLtChars] at h1
    | cons b bs =>
      cases cs with
      | nil => simp [lexLtChars] at h2
      | cons c cs =>
        rw [lexLtChars_cons_iff] at h1 h2 ⊢
        rcases h1 with h1 | ⟨h1e, h1r⟩
        · rcases h2 with h2 | ⟨h2e, h2r⟩
          · exact Or.inl (by omega)
          · exact Or.inl (by omega)
        · rcases h2 with h2 | ⟨h2e, h2r⟩
          · exact Or.inl (by omega)
          · exact Or.inr ⟨by omega, ih h1r h2r⟩

theorem char_eq_of_toNat_eq {a b : Char} (h : a.toNat = b.toNat) : a = b := by
  have h3 : Char.ofNat a.toNat = Char.ofNat b.toNat := by rw [h]
  rwa [Char.ofNat_toNat, Char.ofNat_toNat] at h3

theorem lexLtChars_eq_of_both_false : ∀ {as bs : List Char},
    lexLtChars as bs = false → lexLtChars bs as = false → as = bs := by
  intro as
  induction as with
  | nil =>
    intro bs h1 h2
    cases bs with
    | nil => rfl
    | cons b bs => simp [lexLtChars] at h1
  | cons a as ih =>
    intro bs h1 h2
    cases bs with
    | nil => simp [lexLtChars] at h2
    | cons b bs =>
      have n1 : ¬(a.toNat < b.toNat ∨ (a.toNat = b.toNat ∧ lexLtChars as bs = true)) := by
        rw [← lexLtChars_cons_iff]
        simp [h1]
      have n2 : ¬(b.toNat < a.toNat ∨ (b.toNat = a.toNat ∧ lexLtChars bs as = true)) := by
        rw [← lexLtChars_cons_iff]
        simp [h2]
      push_neg at n1 n2
      have he : a.toNat = b.toNat := by omega
      have hf1 : lexLtChars as bs = false := by
        have := n1.2 he
        simpa using this
      have hf2 : lexLtChars bs as = false := by
        have := n2.2 he.symm
        simpa using this
      rw [char_eq_of_toNat_eq he, ih hf1 hf2]

theorem keyEqB_symm (k : SortKey) (a b : ShoppingItem) :
    keyEqB k a b = keyEqB k b a := by
  rcases k with ⟨f, d⟩
  cases f <;>
    · rw [Bool.eq_iff_iff]
      simp only [keyEqB, beq_iff_eq]
      exact eq_comm

theorem keyEqB_trans (k : SortKey) (a b c : ShoppingItem)
    (h1 : keyEqB k a b = true) (h2 : keyEqB k b c = true) :
    keyEqB k a c = true := by
  rcases k with ⟨f, d⟩
  cases f <;>
    · simp only [keyEqB, beq_iff_eq] at h1 h2 ⊢
      exact h1.trans h2

theorem keyLtB_congrL (k : SortKey) (a b : ShoppingItem)
    (hab : keyEqB k a b = true) (x : ShoppingItem) :
    keyLtB k a x = keyLtB k b x := by
  rcases k with ⟨f, d⟩
  cases f with
  | purchasedField =>
    have h : a.purchased = b.purchased := by simpa [keyEqB] using hab
    cases d <;> simp [keyLtB, h]
  | nameField =>
    have h : a.name = b.name := by simpa [keyEqB] using hab
    cases d <;> simp [keyLtB, h]

theorem keyLtB_congrR (k : SortKey) (a b : ShoppingItem)
    (hab : keyEqB k a b = true) (x : ShoppingItem) :
    keyLtB k x a = keyLtB k x b := by
  rcases k with ⟨f, d⟩
  cases f with
  | purchasedField =>
    have h : a.purchased = b.purchased := by simpa [keyEqB] using hab
    cases d <;> simp [keyLtB, h]
  | nameField =>
    have h : a.name = b.name := by simpa [keyEqB] using hab
    cases d <;> simp [keyLtB, h]

theorem keyLtB_trans (k : SortKey) (a b c : ShoppingItem)
    (h1 : keyLtB k a b = true) (h2 : keyLtB k b c = true) :
    keyLtB k a c = true := by
  rcases k with ⟨f, d⟩
  cases f with
  | purchasedField =>
    revert h1 h2
    cases d <;>
      (cases ha : a.purchased <;> cases hb : b.purchased <;> cases hc : c.purchased <;>
        simp [keyLtB, boolLtB, ha, hb, hc])
  | nameField =>
    cases d
    · simp only [keyLtB] at h1 h2 ⊢
      exact lexLtChars_trans h1 h2
    · simp only [keyLtB] at h1 h2 ⊢
      exact lexLtChars_trans h2 h1

theorem keyLtB_flip (k : SortKey) (a b : ShoppingItem)
    (h1 : keyLtB k a b = false) (h2 : keyEqB k a b = false) :
    keyLtB k b a = true := by
  rcases k with ⟨f, d⟩
  cases f with
  | purchasedField =>
    revert h1 h2
    cases d <;>
      (cases ha : a.purchased <;> cases hb : b.purchased <;>
        simp [keyLtB, keyEqB, boolLtB, ha, hb])
  | nameField =>
    have hne : a.name ≠ b.name := by simpa [keyEqB] using h2
    cases d
    · simp only [keyLtB] at h1 ⊢
      by_contra hcon
      have hf : lexLtChars b.name.toList a.name.toList = false := by simpa using hcon
      have := lexLtChars_eq_of_both_false h1 hf
      exact hne (by
        have h3 := congrArg List.asString this
        rwa [String.asString_toList, String.asString_toList] at h3)
    · simp only [keyLtB] at h1 ⊢
      by_contra hcon
      have hf : lexLtChars a.name.toList b.name.toList = false := by simpa using hcon
      have := lexLtChars_eq_of_both_false hf h1
      exact hne (by
        have h3 := congrArg List.asString this
        rwa [String.asString_toList, String.asString_toList] at h3)

theorem keysLeB_total (ks : List SortKey) (a b : ShoppingItem) :
    keysLeB ks a b = true ∨ keysLeB ks b a = true := by
  induction ks with
  | nil => exact Or.inl rfl
  | cons k ks ih =>
    by_cases hlt : keyLtB k a b = true
    · exact Or.inl (by simp [keysLeB, hlt])
    · by_cases heq : keyEqB k a b = true
      · have heq' : keyEqB k b a = true := by rw [← keyEqB_symm]; exact heq
        rcases ih with h | h
        · exact Or.inl (by simp [keysLeB, heq, h])
        · exact Or.inr (by simp [keysLeB, heq', h])
      · have hltf : keyLtB k a b = false := by simpa using hlt
        have heqf : keyEqB k a b = false := by simpa using heq
        have := keyLtB_flip k a b hltf heqf
        exact Or.inr (by simp [keysLeB, this])

theorem keysLeB_trans (ks : List SortKey) (a b c : ShoppingItem)
    (h1 : keysLeB ks a b = true) (h2 : keysLeB ks b c = true) :
    keysLeB ks a c = true := by
  induction ks with
  | nil => rfl
  | cons k ks ih =>
    simp only [keysLeB, Bool.or_eq_true, Bool.and_eq_true] at h1 h2 ⊢
    rcases h1 with h1 | ⟨h1e, h1r⟩
    · rcases h2 with h2 | ⟨h2e, h2r⟩
      · exact Or.inl (keyLtB_trans k a b c h1 h2)
      · exact Or.inl ((keyLtB_congrR k b c h2e a) ▸ h1)
    · rcases h2 with h2 | ⟨h2e, h2r⟩
      · refine Or.inl ?_
        rw [keyLtB_congrL k a b h1e c]
        exact h2
      · exact Or.inr ⟨keyEqB_trans k a b c h1e h2e, ih h1r h2r⟩

instance (ks : List SortKey) : IsTotal ShoppingItem (itemOrder ks) :=
  ⟨fun a b => keysLeB_total ks a b⟩

instance (ks : List SortKey) : IsTrans ShoppingItem (itemOrder ks) :=
  ⟨fun a b c h1 h2 => keysLeB_trans ks a b c h1 h2⟩

/-- C7: ordering items by the compound key `purchased,name` places every
`purchased = false` item before every `purchased = true` item and sorts
names ascending (case-sensitive) within each purchased group; an unknown
sort key is ignored silently (`purchased,names` parses exactly as
`purchased`); and on the scenario items Apples(false), Bananas(true),
Coconut(true), Dates(false), the result is
[Apples, Dates, Bananas, Coconut]. -/
theorem items_ordered_purchased_then_name (items : List ShoppingItem) :
    List.Pairwise
      (fun a b =>
        (a.purchased = true → b.purchased = true) ∧
        (a.purchased = b.purchased →
          (lexLtChars a.name.toList b.name.toList = true ∨ a.name = b.name)))
      (orderShoppingItems (parseOrdering "purchased,name") items) ∧
    parseOrdering "purchased,names" = parseOrdering "purchased" ∧
    orderShoppingItems (parseOrdering "purchased,name")
      [⟨1, "Apples", false, 40⟩, ⟨2, "Bananas", true, 40⟩,
       ⟨3, "Coconut", true, 40⟩, ⟨4, "Dates", false, 40⟩]
      = [⟨1, "Apples", false, 40⟩, ⟨4, "Dates", false, 40⟩,
         ⟨2, "Bananas", true, 40⟩, ⟨3, "Coconut", true, 40⟩] := by
  refine ⟨?_, by decide, by decide⟩
  have hs := List.sorted_insertionSort (itemOrder (parseOrdering "purchased,name")) items
  refine List.Pairwise.imp ?_ hs
  intro a b hab
  have hpk : parseOrdering "purchased,name"
      = [⟨.purchasedField, false⟩, ⟨.nameField, false⟩] := by decide
  rw [hpk] at hab
  simp only [itemOrder, keysLeB, keyLtB, keyEqB, boolLtB, if_false,
    Bool.or_eq_true, Bool.and_eq_true, Bool.and_true, beq_iff_eq] at hab
  constructor
  · intro hap
    rcases hab with h | ⟨he, -⟩
    · rw [hap] at h
      simp at h
    · rw [← he, hap]
  · intro hpe
    rcases hab with h | ⟨-, hr⟩
    · rw [hpe] at h
      cases hb : b.purchased <;> rw [hb] at h <;> simp at h
    · rcases hr with hlt | heq
      · exact Or.inl hlt
      · exact Or.inr heq

/-- C8 counterexample: on the concrete store, the authorized member alice
creating item "Eggs" without supplying `purchased` does not succeed with a
`false` default — it fails with `validationFailed` and creates nothing:
models.py declares `purchased = models.BooleanField()` with no default, and
the test suite asserts a 400 response for exactly this request. -/
theorem purchased_has_no_default_counterexample :
    (createShoppingItem s0 alice 1 7 (some "Eggs") none).1
      = .error .validationFailed ∧
    (createShoppingItem s0 alice 1 7 (some "Eggs") none).2 = s0 :=
  ⟨rfl, rfl⟩

/-- C8 (amended): for every item creation by an authorized member where the
`purchased` field is not supplied, the creation fails with
`validationFailed` and the store is unchanged: `purchased` is required and
has no default. -/
theorem item_creation_requires_purchased
    (s : State) (p : Principal) (l : ShoppingList) (lid : Nat)
    (hl : findList s lid = some l) (hauth : authorize p l = true)
    (nid : Nat) (name? : Option String) :
    createShoppingItem s p lid nid name? none = (.error .validationFailed, s) := by
  cases name? <;> simp [createShoppingItem, hl, hauth]

/-- C8 witness: alice omitting both fields on the concrete store is rejected
with `validationFailed` and no state change. -/
theorem item_creation_requires_purchased_witness :
    createShoppingItem s0 alice 1 8 none none = (.error .validationFailed, s0) :=
  item_creation_requires_purchased s0 alice groceries 1 (by rfl) (by rfl) 8 none

/-- C9: for every authenticated principal and non-empty name, list creation
succeeds and the created list's member set is exactly the creator: the
creator becomes the sole initial member. -/
theorem creator_becomes_sole_member
    (s : State) (p : Principal) (nid : Nat) (nm : String) (h : nm ≠ "") :
    ∃ l s', createList s p nid nm = (.ok l, s') ∧ l.members = [p.id] ∧
      l.name = nm ∧ s'.lists = s.lists ++ [l] := by
  refine ⟨⟨nid, nm, [p.id], s.now⟩,
    { s with lists := s.lists ++ [⟨nid, nm, [p.id], s.now⟩] }, ?_, rfl, rfl, rfl⟩
  simp [createList, h]

/-- C9 witness: charlie creating "Books" on the concrete store ends up its
sole member. -/
theorem creator_becomes_sole_member_witness :
    ∃ l s', createList s0 charlie 7 "Books" = (.ok l, s') ∧
      l.members = [charlie.id] ∧ l.name = "Books" ∧ s'.lists = s0.lists ++ [l] :=
  creator_becomes_sole_member s0 charlie 7 "Books" (by decide)

/-- C10: the item-detail endpoint resolves its target by the item id path
segment alone — retrieve, update and delete are insensitive to the list id
placed in the path, so the same item is reachable under any list id; for an
existing item readable by the principal, the retrieve under an arbitrary
path list id returns that item. -/
theorem item_detail_resolved_by_item_id_alone
    (s : State) (p : Principal) (iid pa pb : Nat) :
    shoppingItemDetail s p pa iid = shoppingItemDetail s p pb iid ∧
    (∀ name? pur? fl,
       updateShoppingItem s p pa iid name? pur? fl
         = updateShoppingItem s p pb iid name? pur? fl) ∧
    deleteShoppingItem s p pa iid = deleteShoppingItem s p pb iid ∧
    (∀ i l, findItem s iid = some i → findList s i.shoppingList = some l →
       authorize p l = true → shoppingItemDetail s p pa iid = .ok i) := by
  refine ⟨rfl, fun _ _ _ => rfl, rfl, ?_⟩
  intro i l hi hll hauth
  simp [shoppingItemDetail, hi, hll, hauth]

end DrfShopping
